import Mathlib

/-!
Verification development for the renlang compiler front-end:
a shallow embedding of the diagnostic/location model (src/core.rs),
the namespace/name-target model (src/semantic/namespace.rs),
the pure-forward graph and cycle detector
(src/semantic/passes/dependencies.rs), and a model of the dependency
resolution pass (src/semantic/passes/resolution.rs).

Rust `usize`/`u32` ids are modelled as `Nat` (they are only ever used as
indices/keys, never with overflow arithmetic), `Vec`/`VecDeque` as `List`
(front of the deque = head of the list), and `HashMap`/`HashSet` as
association lists / lists of keys.  Hash-map iteration order is modelled
by the order of the underlying list, which lets order-(in)dependence be
stated explicitly.
-/

set_option autoImplicit false

namespace Renlang

/-! ## Core: file ranges and diagnostics (src/core.rs) -/

/-- `FileRange` from src/core.rs: a file path plus start and stop
(line, column) pairs.  `PathBuf` is modelled as `String`; the Rust field
`end` is named `stop` here because `end` is a Lean keyword. -/
structure FileRange where
  path : String
  start : Nat × Nat
  stop : Nat × Nat
deriving DecidableEq, Repr

/-- `FileRange::merge` from src/core.rs.  The Rust code panics when the
two paths differ; the panic is modelled as `none`.  The body transcribes
the Rust exactly, including its `else if` chain and the literal
`(location.start.0, location.start.0)` assignment. -/
def FileRange.merge (self location : FileRange) : Option FileRange :=
  if self.path ≠ location.path then none
  else
    let start := self.start
    let stop := self.stop
    if location.start.1 < self.start.1 ∨
        (location.start.1 = self.start.1 ∧ location.start.2 < self.start.2) then
      some ⟨self.path, (location.start.1, location.start.1), stop⟩
    else if location.stop.1 > self.stop.1 ∨
        (location.stop.1 = self.stop.1 ∧ location.stop.2 > self.stop.2) then
      some ⟨self.path, start, (location.stop.1, location.stop.2)⟩
    else
      some ⟨self.path, start, stop⟩

/-- `DiagnosticLevel` from src/core.rs, `Verbose < Message < Warning <
Error < Fatal`. -/
inductive DiagnosticLevel where
  | Verbose
  | Message
  | Warning
  | Error
  | Fatal
deriving DecidableEq, Repr

/-- The `repr(u8)` discriminant of a `DiagnosticLevel` (Verbose = 1 ...
Fatal = 5), used for the derived ordering. -/
def DiagnosticLevel.toNat : DiagnosticLevel → Nat
  | .Verbose => 1
  | .Message => 2
  | .Warning => 3
  | .Error => 4
  | .Fatal => 5

/-- The derived `PartialOrd` comparison on diagnostic levels. -/
def DiagnosticLevel.le (a b : DiagnosticLevel) : Prop := a.toNat ≤ b.toNat

instance : DecidablePred (fun p : DiagnosticLevel × DiagnosticLevel => p.1.le p.2) :=
  fun p => inferInstanceAs (Decidable (p.1.toNat ≤ p.2.toNat))

instance (a b : DiagnosticLevel) : Decidable (a.le b) :=
  inferInstanceAs (Decidable (a.toNat ≤ b.toNat))

/-- `Diagnostic` from src/core.rs: a location, a message and a level. -/
structure Diagnostic where
  location : FileRange
  message : String
  level : DiagnosticLevel
deriving DecidableEq, Repr

/-- `Diagnostic::new` from src/core.rs: level defaults to `Error`. -/
def Diagnostic.new (message : String) (location : FileRange) : Diagnostic :=
  ⟨location, message, .Error⟩

/-- `DiagResult<T>` from src/core.rs: `DiagResult(Option<T>,
Vec<Diagnostic>)`.  The tuple-struct fields are named `val` and
`diags`. -/
structure DiagResult (T : Type) where
  val : Option T
  diags : List Diagnostic

/-- `DiagResult::ok` from src/core.rs. -/
def DiagResult.ok {T : Type} (result : T) : DiagResult T := ⟨some result, []⟩

/-- `<DiagResult as Try>::into_result` from src/core.rs: the `?`
operator short-circuits exactly when this returns the error branch. -/
def DiagResult.intoResult {T : Type} (self : DiagResult T) :
    Except (List Diagnostic) (DiagResult T) :=
  match self with
  | ⟨none, diags⟩ => .error diags
  | _ => .ok self

/-- `<DiagResult as Try>::from_error` from src/core.rs. -/
def DiagResult.fromError {T : Type} (v : List Diagnostic) : DiagResult T := ⟨none, v⟩

/-- `<DiagResult as Try>::from_ok` from src/core.rs. -/
def DiagResult.fromOk {T : Type} (v : DiagResult T) : DiagResult T := v

/-! ## Tokens (src/parser/lexer/token.rs)

The resolution engine only ever consumes a token through its `image`
string and its source `range`; the `token_type` and parsed `value`
fields never reach the semantic passes, so the model keeps the two
consumed projections. -/

/-- `Token` from src/parser/lexer/token.rs, restricted to the two
projections (`image()` and `range()`) consumed by the semantic passes. -/
structure Token where
  image : String
  range : FileRange
deriving DecidableEq, Repr

/-! ## Dependencies and the pure-forward graph
(src/semantic/passes/dependencies.rs) -/

/-- `PureForward` from src/semantic/passes/dependencies.rs: a wildcard
re-export edge.  `u32` namespace ids are modelled as `Nat`. -/
structure PureForward where
  forwardNamespace : Nat
  exportModule : String
  exportModuleLocation : FileRange
  starLocation : FileRange
deriving DecidableEq, Repr

/-- `Dependency` from src/semantic/passes/dependencies.rs.  The
`ExportedName` field `namespace` is renamed `nspace` because
`namespace` is a Lean keyword. -/
inductive Dependency where
  | ImportedName (importNamespace : Nat) (importName : Token)
      (exportModule : String) (exportModuleLocation : FileRange) (exportName : Token)
  | ImportedNamespace (importNamespace : Nat) (importName : Token)
      (exportModule : String) (exportModuleLocation : FileRange) (starLocation : FileRange)
  | ForwardedName (forwardNamespace : Nat) (forwardName : Token)
      (exportModule : String) (exportModuleLocation : FileRange) (exportName : Token)
  | PureForwardReplacement (forwardNamespace : Nat) (forwardName : String)
      (exportModule : String) (exportModuleLocation : FileRange) (starLocation : FileRange)
  | ForwardedNamespace (forwardNamespace : Nat) (forwardName : Token)
      (exportModule : String) (exportModuleLocation : FileRange) (starLocation : FileRange)
  | ExportedName (nspace : Nat) (localName : Token) (exportName : Token)
deriving DecidableEq, Repr

/-! ## Name targets and references (src/semantic/namespace.rs) -/

/-- `NameTargetStatus` from src/semantic/namespace.rs. -/
inductive NameTargetStatus where
  | NotResolved
  | FullyResolved
  | Dangling
  | Circular
  | Empty
deriving DecidableEq, Repr

/-- `Reference` from src/semantic/namespace.rs.  `&'static Path` module
paths are modelled as `String`. -/
inductive Reference where
  | RemoteName (modulePath : String) (exportName : String) (resolvedDeclarationId : Nat)
  | RemoteNamespace (modulePath : String) (resolvedDeclarationId : Nat)
  | LocalName (name : String) (resolvedDeclarationId : Nat)
  | LocalDeclaration (resolvedDeclarationId : Nat)
  | MissingModule (modulePath : String) (exportName : Option String)
  | MissingExport (modulePath : String) (exportName : String)
  | MissingLocal (localName : String)
  | CircularRemote (modulePath : String) (exportName : String)
  | CircularLocal (localName : String)
  | EmptyRemote (modulePath : String) (exportName : String)
  | EmptyLocal (localName : String)
deriving DecidableEq, Repr

/-- `Reference::status` from src/semantic/namespace.rs (the catch-all
arm of the Rust `match` covers `EmptyRemote` and `EmptyLocal`). -/
def Reference.status : Reference → NameTargetStatus
  | .RemoteName _ _ _ | .RemoteNamespace _ _ | .LocalName _ _ | .LocalDeclaration _ =>
      .FullyResolved
  | .MissingModule _ _ | .MissingExport _ _ | .MissingLocal _ => .Dangling
  | .CircularRemote _ _ | .CircularLocal _ => .Circular
  | _ => .Empty

/-- `NameTarget` from src/semantic/namespace.rs.  The `VecDeque` of
dependencies is a `List` whose head is the front of the queue. -/
structure NameTarget where
  status : NameTargetStatus
  references : List Reference
  dependencies : List Dependency
deriving DecidableEq, Repr

/-- `NameTarget::new` from src/semantic/namespace.rs. -/
def NameTarget.new : NameTarget := ⟨.NotResolved, [], []⟩

/-- `NameTarget::add_reference` from src/semantic/namespace.rs. -/
def NameTarget.addReference (self : NameTarget) (reference : Reference) : NameTarget :=
  { self with references := self.references ++ [reference] }

/-- `NameTarget::add_dependency` from src/semantic/namespace.rs. -/
def NameTarget.addDependency (self : NameTarget) (dep : Dependency) : NameTarget :=
  { self with dependencies := self.dependencies ++ [dep] }

/-- `NameTarget::pop_dependency` from src/semantic/namespace.rs. -/
def NameTarget.popDependency (self : NameTarget) : Option Dependency × NameTarget :=
  match self.dependencies with
  | [] => (none, self)
  | d :: rest => (some d, { self with dependencies := rest })

/-- `NameTarget::set_aggregate_status` from src/semantic/namespace.rs. -/
def NameTarget.setAggregateStatus (self : NameTarget) : NameTarget :=
  if self.references.any (fun r => r.status = .FullyResolved) then
    { self with status := .FullyResolved }
  else if self.references.any (fun r => r.status = .Dangling) then
    { self with status := .Dangling }
  else if self.references.any (fun r => r.status = .Circular) then
    { self with status := .Circular }
  else
    { self with status := .Empty }

/-! ## Namespaces (src/semantic/namespace.rs)

`HashMap<&str, NameTarget>` is modelled as an association list; lookup
takes the first matching key, and a fresh key is appended at the end
(keys are unique in any state the program builds, so the position of
the insertion is unobservable through lookups). -/

/-- Lookup in an association list of name targets (first match). -/
def lookupName (m : List (String × NameTarget)) (name : String) : Option NameTarget :=
  match m with
  | [] => none
  | (k, v) :: rest => if k = name then some v else lookupName rest name

/-- Update the first binding of `name`, leaving the map unchanged when
the name is absent (the semantics of mutating through a `get(name)!`
lookup). -/
def updateName (m : List (String × NameTarget)) (name : String)
    (f : NameTarget → NameTarget) : List (String × NameTarget) :=
  match m with
  | [] => []
  | (k, v) :: rest =>
      if k = name then (k, f v) :: rest else (k, v) :: updateName rest name f

/-- `Namespace` from src/semantic/namespace.rs.  The CST `node` payload
of the `Nested` variant is never inspected by the semantic passes and
is omitted. -/
inductive Namespace where
  | Nested (namespaceId parentNamespaceId declarationId : Nat)
      (locals exports : List (String × NameTarget))
  | Module (namespaceId : Nat) (absolutePath : String)
      (locals exports : List (String × NameTarget))

/-- `Namespace::locals` from src/semantic/namespace.rs. -/
def Namespace.locals : Namespace → List (String × NameTarget)
  | .Nested _ _ _ locals _ => locals
  | .Module _ _ locals _ => locals

/-- `Namespace::exports` from src/semantic/namespace.rs. -/
def Namespace.exports : Namespace → List (String × NameTarget)
  | .Nested _ _ _ _ exports => exports
  | .Module _ _ _ exports => exports

/-- Replace the locals map of a namespace. -/
def Namespace.withLocals (self : Namespace) (m : List (String × NameTarget)) : Namespace :=
  match self with
  | .Nested a b c _ e => .Nested a b c m e
  | .Module a b _ e => .Module a b m e

/-- Replace the exports map of a namespace. -/
def Namespace.withExports (self : Namespace) (m : List (String × NameTarget)) : Namespace :=
  match self with
  | .Nested a b c d _ => .Nested a b c d m
  | .Module a b c _ => .Module a b c m

/-- `Namespace::get_local_target` from src/semantic/namespace.rs:
`entry(name).or_insert_with(NameTarget::new)`.  Returns the target
(existing, or freshly inserted) together with the updated namespace. -/
def Namespace.getLocalTarget (self : Namespace) (name : String) :
    NameTarget × Namespace :=
  match lookupName self.locals name with
  | some t => (t, self)
  | none => (NameTarget.new, self.withLocals (self.locals ++ [(name, NameTarget.new)]))

/-- `Namespace::get_export_target` from src/semantic/namespace.rs:
`entry(name).or_insert_with(NameTarget::new)`. -/
def Namespace.getExportTarget (self : Namespace) (name : String) :
    NameTarget × Namespace :=
  match lookupName self.exports name with
  | some t => (t, self)
  | none => (NameTarget.new, self.withExports (self.exports ++ [(name, NameTarget.new)]))

/-- `Namespace::add_local_declaration` from src/semantic/namespace.rs:
get-or-insert the local target and push a `LocalDeclaration`
reference. -/
def Namespace.addLocalDeclaration (self : Namespace) (name : String)
    (declarationId : Nat) : Namespace :=
  let (t, ns) := self.getLocalTarget name
  ns.withLocals (updateName ns.locals name
    (fun _ => t.addReference (.LocalDeclaration declarationId)))

/-- `ModuleRef` from src/semantic/namespace.rs. -/
inductive ModuleRef where
  | Referenced (fullyResolved : Bool)
  | Unparsed (fullyResolved : Bool)
  | NotFound (fullyResolved : Bool)
  | Success (namespaceId : Nat) (fullyResolved : Bool)
deriving DecidableEq, Repr

/-! ## PureForwardGraph (src/semantic/passes/dependencies.rs)

The `HashMap<(usize, usize), PureForward>` is modelled as an
association list keyed by `(exporter, forwarder)`; the order of the
list models the (arbitrary) hash-map iteration order that
`get_consumers`/`get_suppliers` expose through their result `Vec`s. -/

/-- `PureForwardGraph` from src/semantic/passes/dependencies.rs. -/
structure PureForwardGraph where
  map : List ((Nat × Nat) × PureForward)
  size : Nat
deriving DecidableEq, Repr

/-- `PureForwardGraph::new` from src/semantic/passes/dependencies.rs. -/
def PureForwardGraph.new (size : Nat) : PureForwardGraph := ⟨[], size⟩

/-- `PureForwardGraph::get_forward` from
src/semantic/passes/dependencies.rs. -/
def PureForwardGraph.getForward (self : PureForwardGraph)
    (exporter forwarder : Nat) : Option PureForward :=
  (self.map.find? (fun e => e.1 = (exporter, forwarder))).map Prod.snd

/-- `PureForwardGraph::add_forward` from
src/semantic/passes/dependencies.rs:
`map.insert(key, fwd).expect_none("Duplicate forward inserted")`.
The `expect_none` panic on a pre-existing entry is modelled as
`none`. -/
def PureForwardGraph.addForward (self : PureForwardGraph)
    (exporter forwarder : Nat) (fwd : PureForward) : Option PureForwardGraph :=
  match self.getForward exporter forwarder with
  | some _ => none
  | none => some { self with map := self.map ++ [((exporter, forwarder), fwd)] }

/-- `PureForwardGraph::get_consumers` from
src/semantic/passes/dependencies.rs: all namespaces which forward from
`exporter`, in map-iteration (list) order. -/
def PureForwardGraph.getConsumers (self : PureForwardGraph) (exporter : Nat) : List Nat :=
  (self.map.filter (fun e => e.1.1 = exporter)).map (fun e => e.1.2)

/-- `PureForwardGraph::get_suppliers` from
src/semantic/passes/dependencies.rs: all namespaces that `forwarder`
has a forward for, in map-iteration (list) order. -/
def PureForwardGraph.getSuppliers (self : PureForwardGraph) (forwarder : Nat) : List Nat :=
  (self.map.filter (fun e => e.1.2 = forwarder)).map (fun e => e.1.1)

/-! ### Cycle detection -/

/-- Insert an element into a list treated as a set (the model of
`HashSet::insert`). -/
def setInsert (s : List Nat) (n : Nat) : List Nat :=
  if s.contains n then s else s ++ [n]

/-- Union a list-as-set with further elements (the model of
`HashSet::extend`). -/
def setExtend (s : List Nat) (new : List Nat) : List Nat :=
  new.foldl setInsert s

/-- The mutable state threaded through `cycles_visitor`: the current
DFS path (top of the stack at the end of the list), the global visited
set, and the discovered cycles in discovery order. -/
structure VisitState where
  currentPath : List Nat
  visited : List Nat
  cycles : List (List Nat)
deriving DecidableEq, Repr

/-- The cycle-recording branch of `cycles_visitor`: the slice of the
current path from the first occurrence of `consumer` to the top either
merges into the first existing cycle sharing a member
(`cycles.iter().find(...)` followed by `extend`), or is pushed as a new
cycle. -/
def recordCycle (st : VisitState) (consumerIndex : Nat) : VisitState :=
  let cycle := st.currentPath.drop consumerIndex
  match st.cycles.findIdx? (fun c => cycle.any (fun n => c.contains n)) with
  | some i => { st with cycles := st.cycles.modify (fun c => setExtend c cycle) i }
  | none => { st with cycles := st.cycles ++ [cycle] }

/-- `PureForwardGraph::cycles_visitor` from
src/semantic/passes/dependencies.rs, with an explicit fuel parameter
standing in for the recursion budget (`none` = fuel exhausted; at the
fuel supplied by `getCyclesState` every input in this file completes).
The body mirrors the Rust exactly: early return when `ns >= size` or
`ns` is visited; push `ns`; iterate the consumers of `ns`, skipping a
self-loop (the Rust body of that branch is an empty TODO comment),
recording a cycle when the consumer is on the current path, and
recursing otherwise; then pop, mark `ns` visited, and when the path is
empty move on to `ns + 1`. -/
def cyclesVisitor (g : PureForwardGraph) :
    Nat → Nat → VisitState → Option VisitState
  | 0, _, _ => none
  | fuel + 1, ns, st =>
    if ns ≥ g.size ∨ st.visited.contains ns then some st
    else do
      let st := { st with currentPath := st.currentPath ++ [ns] }
      let st ← (g.getConsumers ns).foldlM (fun (st : VisitState) consumer => do
        if consumer = ns then
          pure st
        else
          match st.currentPath.findIdx? (fun n => n = consumer) with
          | some consumerIndex => pure (recordCycle st consumerIndex)
          | none => cyclesVisitor g fuel consumer st) st
      let st := { st with currentPath := st.currentPath.dropLast }
      let st := { st with visited := setInsert st.visited ns }
      if st.currentPath.length = 0 then
        cyclesVisitor g fuel (ns + 1) st
      else
        pure st

/-- A recursion budget sufficient for every terminating run modelled in
this file. -/
def PureForwardGraph.fuelBound (self : PureForwardGraph) : Nat :=
  (self.size + 1) * (self.map.length + 2) + 1

/-- Run `cycles_visitor` the way `get_cycles` does: from namespace `0`
with an empty path, empty visited set and no cycles. -/
def PureForwardGraph.getCyclesState (self : PureForwardGraph) : Option VisitState :=
  cyclesVisitor self self.fuelBound 0 ⟨[], [], []⟩

/-- Insert-or-overwrite into the model of
`HashMap<usize, HashSet<usize>>`. -/
def mapInsert (m : List (Nat × List Nat)) (k : Nat) (v : List Nat) :
    List (Nat × List Nat) :=
  match m with
  | [] => [(k, v)]
  | (k0, v0) :: rest =>
      if k0 = k then (k, v) :: rest else (k0, v0) :: mapInsert rest k v

/-- Lookup in the model of `HashMap<usize, HashSet<usize>>`. -/
def mapLookup (m : List (Nat × List Nat)) (k : Nat) : Option (List Nat) :=
  match m with
  | [] => none
  | (k0, v0) :: rest => if k0 = k then some v0 else mapLookup rest k

/-- The map-assembly loop at the end of `get_cycles`:
`for cycle in cycles { for ns in cycle { map.insert(ns, cycle); } }`. -/
def assembleCycleMap (cycles : List (List Nat)) : List (Nat × List Nat) :=
  cycles.foldl (fun m cycle => cycle.foldl (fun m ns => mapInsert m ns cycle) m) []

/-- `PureForwardGraph::get_cycles` from
src/semantic/passes/dependencies.rs: run the visitor, then assemble the
namespace-to-cycle map. -/
def PureForwardGraph.getCycles (self : PureForwardGraph) :
    Option (List (Nat × List Nat)) :=
  self.getCyclesState.map (fun st => assembleCycleMap st.cycles)

/-! ## The dependency resolution pass

The Rust source of the repository contains only a stub for this pass
(`pub fn resolve_dependencies() {}` in
src/semantic/passes/resolution.rs); the algorithm itself exists there
only as a commented-out prototype.  The definitions below are therefore
modelled from the specification (section 4.4 of the spec), not
translated from Rust source. -/

/-- Modify a list at an index, leaving it unchanged when the index is
out of range. -/
def listModify {α : Type} (l : List α) (i : Nat) (f : α → α) : List α :=
  match l, i with
  | [], _ => []
  | x :: rest, 0 => f x :: rest
  | x :: rest, i + 1 => x :: listModify rest i f

/-- Lookup in the module registry (first match). -/
def lookupModule (m : List (String × ModuleRef)) (path : String) : Option ModuleRef :=
  match m with
  | [] => none
  | (k, v) :: rest => if k = path then some v else lookupModule rest path

/-- Modelled from the spec: the state threaded through the missing
resolution pass — the module registry, the namespace arena (indexed by
namespace id) and the accumulated diagnostics. -/
structure ResolutionState where
  modules : List (String × ModuleRef)
  namespaces : List Namespace
  diagnostics : List Diagnostic

/-- The namespace with a given id (arena indexing). -/
def ResolutionState.getNs (st : ResolutionState) (nsid : Nat) : Option Namespace :=
  st.namespaces[nsid]?

/-- The export target of namespace `nsid` named `name`, when present. -/
def ResolutionState.getExport (st : ResolutionState) (nsid : Nat) (name : String) :
    Option NameTarget :=
  (st.getNs nsid).bind (fun ns => lookupName ns.exports name)

/-- The local target of namespace `nsid` named `name`, when present. -/
def ResolutionState.getLocal (st : ResolutionState) (nsid : Nat) (name : String) :
    Option NameTarget :=
  (st.getNs nsid).bind (fun ns => lookupName ns.locals name)

/-- The export or local target of `nsid` named `name`, selected by
`isExport`. -/
def ResolutionState.getTarget (st : ResolutionState) (isExport : Bool) (nsid : Nat)
    (name : String) : Option NameTarget :=
  if isExport then st.getExport nsid name else st.getLocal nsid name

/-- Apply `f` to the export target `name` of namespace `nsid` (no-op
when absent). -/
def ResolutionState.mutateExport (st : ResolutionState) (nsid : Nat) (name : String)
    (f : NameTarget → NameTarget) : ResolutionState :=
  { st with namespaces :=
      listModify st.namespaces nsid (fun ns => ns.withExports (updateName ns.exports name f)) }

/-- Apply `f` to the local target `name` of namespace `nsid` (no-op
when absent). -/
def ResolutionState.mutateLocal (st : ResolutionState) (nsid : Nat) (name : String)
    (f : NameTarget → NameTarget) : ResolutionState :=
  { st with namespaces :=
      listModify st.namespaces nsid (fun ns => ns.withLocals (updateName ns.locals name f)) }

/-- Apply `f` to the export or local target selected by `isExport`. -/
def ResolutionState.mutateTarget (st : ResolutionState) (isExport : Bool) (nsid : Nat)
    (name : String) (f : NameTarget → NameTarget) : ResolutionState :=
  if isExport then st.mutateExport nsid name f else st.mutateLocal nsid name f

/-- Append a reference to the export or local target selected by
`isExport`. -/
def ResolutionState.addReference (st : ResolutionState) (isExport : Bool) (nsid : Nat)
    (name : String) (ref : Reference) : ResolutionState :=
  st.mutateTarget isExport nsid name (fun t => t.addReference ref)

/-- Append an `Error`-level diagnostic. -/
def ResolutionState.addDiagnostic (st : ResolutionState) (message : String)
    (location : FileRange) : ResolutionState :=
  { st with diagnostics := st.diagnostics ++ [Diagnostic.new message location] }

/-- The namespace id of a successfully parsed module, when the module
path is registered with `Success` status. -/
def ResolutionState.moduleNamespace (st : ResolutionState) (path : String) : Option Nat :=
  match lookupModule st.modules path with
  | some (.Success nsid _) => some nsid
  | _ => none

/-- The declaration id carried by a resolved reference (`0` for the
non-resolved variants, which the callers filter out). -/
def Reference.resolvedId : Reference → Nat
  | .RemoteName _ _ i => i
  | .RemoteNamespace _ i => i
  | .LocalName _ i => i
  | .LocalDeclaration i => i
  | _ => 0

/-- Modelled from the spec (section 4.4, step 5, for the missing
resolution pass): once the target of a remote dependency is
`FullyResolved`, append one `RemoteName` reference per resolved
reference held by the target. -/
def addResolvedRemoteRefs (st : ResolutionState) (isExport : Bool) (nsid : Nat)
    (name : String) (modulePath exportName : String) (refs : List Reference) :
    ResolutionState :=
  (refs.filter (fun r => r.status = .FullyResolved)).foldl
    (fun st2 r => st2.addReference isExport nsid name
      (.RemoteName modulePath exportName r.resolvedId)) st

/-- Modelled from the spec (section 4.4, step 5, for the missing
resolution pass): once the target of a local (`ExportedName`)
dependency is `FullyResolved`, append one `LocalName` reference per
resolved reference held by the target. -/
def addResolvedLocalRefs (st : ResolutionState) (nsid : Nat) (name : String)
    (localName : String) (refs : List Reference) : ResolutionState :=
  (refs.filter (fun r => r.status = .FullyResolved)).foldl
    (fun st2 r => st2.addReference true nsid name
      (.LocalName localName r.resolvedId)) st

mutual

/-- Modelled from the spec: `process_name` of the missing resolution
pass (section 4.4), covering both `processExportName` and
`processLocalName` (selected by `isExport`; the spec gives them the
same shape).  A no-op if the target already has a terminal status;
otherwise drain the dependency queue and freeze the aggregate status.
`none` models either fuel exhaustion or a crash on a name absent from
the map (the prototype indexes with a non-null assertion). -/
def processName : Nat → ResolutionState → Bool → Nat → String → List Dependency →
    Option ResolutionState
  | 0, _, _, _, _, _ => none
  | fuel + 1, st, isExport, nsid, name, chain => do
    let t ← st.getTarget isExport nsid name
    if t.status ≠ .NotResolved then pure st
    else do
      let st1 ← drainLoop fuel st isExport nsid name chain
      pure (st1.mutateTarget isExport nsid name NameTarget.setAggregateStatus)

/-- Modelled from the spec: the queue-draining loop of `process_name` —
repeatedly pop the front of the dependency queue and dispatch it until
the queue is empty. -/
def drainLoop : Nat → ResolutionState → Bool → Nat → String → List Dependency →
    Option ResolutionState
  | 0, _, _, _, _, _ => none
  | fuel + 1, st, isExport, nsid, name, chain => do
    let t ← st.getTarget isExport nsid name
    match t.dependencies with
    | [] => pure st
    | dep :: rest => do
      let st1 := st.mutateTarget isExport nsid name
        (fun t2 => { t2 with dependencies := rest })
      let st2 ← processDependency fuel st1 dep chain
      drainLoop fuel st2 isExport nsid name chain

/-- Modelled from the spec: `process_dependency` of the missing
resolution pass (section 4.4): circularity check against the chain,
dangling module / export / local checks, recursion into the target
name, then propagation by the aggregate status of the target.
`ImportedNamespace` / `ForwardedNamespace` need no recursion; a
`RemoteNamespace` reference carries the target namespace id as its
declaration id.  `none` after the recursive call returning a
still-`NotResolved` status models the prototype throw labelled as
impossible. -/
def processDependency : Nat → ResolutionState → Dependency → List Dependency →
    Option ResolutionState
  | 0, _, _, _ => none
  | fuel + 1, st, dep, chain =>
    match dep with
    | .ImportedName importNamespace importName exportModule exportModuleLocation exportName =>
      if chain.contains dep then
        pure ((st.addReference false importNamespace importName.image
            (.CircularRemote exportModule exportName.image)).addDiagnostic
          ("Dependency on export \"" ++ exportName.image ++ "\" from module \"" ++
            exportModule ++ "\" is circular") exportName.range)
      else
        match st.moduleNamespace exportModule with
        | none =>
          pure ((st.addReference false importNamespace importName.image
              (.MissingModule exportModule (some exportName.image))).addDiagnostic
            ("Module \"" ++ exportModule ++ "\" does not exist") exportModuleLocation)
        | some exportNamespace =>
          match st.getExport exportNamespace exportName.image with
          | none =>
            pure ((st.addReference false importNamespace importName.image
                (.MissingExport exportModule exportName.image)).addDiagnostic
              ("Module \"" ++ exportModule ++ "\" has no exported member \"" ++
                exportName.image ++ "\"") exportName.range)
          | some _ => do
            let st1 ← processName fuel st true exportNamespace exportName.image
              (chain ++ [dep])
            let exp ← st1.getExport exportNamespace exportName.image
            match exp.status with
            | .FullyResolved =>
              pure (addResolvedRemoteRefs st1 false importNamespace importName.image
                exportModule exportName.image exp.references)
            | .Dangling | .Empty =>
              pure (st1.addReference false importNamespace importName.image
                (.EmptyRemote exportModule exportName.image))
            | .Circular =>
              pure (st1.addReference false importNamespace importName.image
                (.CircularRemote exportModule exportName.image))
            | .NotResolved => none
    | .ImportedNamespace importNamespace importName exportModule exportModuleLocation _ =>
      match st.moduleNamespace exportModule with
      | none =>
        pure ((st.addReference false importNamespace importName.image
            (.MissingModule exportModule none)).addDiagnostic
          ("Module \"" ++ exportModule ++ "\" does not exist") exportModuleLocation)
      | some exportNamespace =>
        pure (st.addReference false importNamespace importName.image
          (.RemoteNamespace exportModule exportNamespace))
    | .ForwardedName forwardNamespace forwardName exportModule exportModuleLocation exportName =>
      if chain.contains dep then
        pure ((st.addReference true forwardNamespace forwardName.image
            (.CircularRemote exportModule exportName.image)).addDiagnostic
          ("Dependency on export \"" ++ exportName.image ++ "\" from module \"" ++
            exportModule ++ "\" is circular") exportName.range)
      else
        match st.moduleNamespace exportModule with
        | none =>
          pure ((st.addReference true forwardNamespace forwardName.image
              (.MissingModule exportModule (some exportName.image))).addDiagnostic
            ("Module \"" ++ exportModule ++ "\" does not exist") exportModuleLocation)
        | some exportNamespace =>
          match st.getExport exportNamespace exportName.image with
          | none =>
            pure ((st.addReference true forwardNamespace forwardName.image
                (.MissingExport exportModule exportName.image)).addDiagnostic
              ("Module \"" ++ exportModule ++ "\" has no exported member \"" ++
                exportName.image ++ "\"") exportName.range)
          | some _ => do
            let st1 ← processName fuel st true exportNamespace exportName.image
              (chain ++ [dep])
            let exp ← st1.getExport exportNamespace exportName.image
            match exp.status with
            | .FullyResolved =>
              pure (addResolvedRemoteRefs st1 true forwardNamespace forwardName.image
                exportModule exportName.image exp.references)
            | .Dangling | .Empty =>
              pure (st1.addReference true forwardNamespace forwardName.image
                (.EmptyRemote exportModule exportName.image))
            | .Circular =>
              pure (st1.addReference true forwardNamespace forwardName.image
                (.CircularRemote exportModule exportName.image))
            | .NotResolved => none
    | .PureForwardReplacement forwardNamespace forwardName exportModule exportModuleLocation starLocation =>
      if chain.contains dep then
        pure ((st.addReference true forwardNamespace forwardName
            (.CircularRemote exportModule forwardName)).addDiagnostic
          ("Dependency on export \"" ++ forwardName ++ "\" from module \"" ++
            exportModule ++ "\" is circular") starLocation)
      else
        match st.moduleNamespace exportModule with
        | none =>
          pure ((st.addReference true forwardNamespace forwardName
              (.MissingModule exportModule (some forwardName))).addDiagnostic
            ("Module \"" ++ exportModule ++ "\" does not exist") exportModuleLocation)
        | some exportNamespace =>
          match st.getExport exportNamespace forwardName with
          | none =>
            pure ((st.addReference true forwardNamespace forwardName
                (.MissingExport exportModule forwardName)).addDiagnostic
              ("Module \"" ++ exportModule ++ "\" has no exported member \"" ++
                forwardName ++ "\"") starLocation)
          | some _ => do
            let st1 ← processName fuel st true exportNamespace forwardName
              (chain ++ [dep])
            let exp ← st1.getExport exportNamespace forwardName
            match exp.status with
            | .FullyResolved =>
              pure (addResolvedRemoteRefs st1 true forwardNamespace forwardName
                exportModule forwardName exp.references)
            | .Dangling | .Empty =>
              pure (st1.addReference true forwardNamespace forwardName
                (.EmptyRemote exportModule forwardName))
            | .Circular =>
              pure (st1.addReference true forwardNamespace forwardName
                (.CircularRemote exportModule forwardName))
            | .NotResolved => none
    | .ForwardedNamespace forwardNamespace forwardName exportModule exportModuleLocation _ =>
      match st.moduleNamespace exportModule with
      | none =>
        pure ((st.addReference true forwardNamespace forwardName.image
            (.MissingModule exportModule none)).addDiagnostic
          ("Module \"" ++ exportModule ++ "\" does not exist") exportModuleLocation)
      | some exportNamespace =>
        pure (st.addReference true forwardNamespace forwardName.image
          (.RemoteNamespace exportModule exportNamespace))
    | .ExportedName nspace localName exportName =>
      if chain.contains dep then
        pure ((st.addReference true nspace exportName.image
            (.CircularLocal localName.image)).addDiagnostic
          ("Dependency on local \"" ++ localName.image ++ "\" is circular")
          localName.range)
      else
        match st.getLocal nspace localName.image with
        | none =>
          pure ((st.addReference true nspace exportName.image
              (.MissingLocal localName.image)).addDiagnostic
            ("Local \"" ++ localName.image ++ "\" does not exist") localName.range)
        | some _ => do
          let st1 ← processName fuel st false nspace localName.image (chain ++ [dep])
          let loc ← st1.getLocal nspace localName.image
          match loc.status with
          | .FullyResolved =>
            pure (addResolvedLocalRefs st1 nspace exportName.image localName.image
              loc.references)
          | .Dangling | .Empty =>
            pure (st1.addReference true nspace exportName.image
              (.EmptyLocal localName.image))
          | .Circular =>
            pure (st1.addReference true nspace exportName.image
              (.CircularLocal localName.image))
          | .NotResolved => none

end

/-- Modelled from the spec: `processNamespace` of the missing
resolution pass — process every export name of the namespace, then
every local name. -/
def processNamespace (fuel : Nat) (st : ResolutionState) (nsid : Nat) :
    Option ResolutionState := do
  let ns ← st.getNs nsid
  let st1 ← (ns.exports.map Prod.fst).foldlM
    (fun st2 name => processName fuel st2 true nsid name []) st
  let ns2 ← st1.getNs nsid
  (ns2.locals.map Prod.fst).foldlM
    (fun st2 name => processName fuel st2 false nsid name []) st1

/-- Modelled from the spec: the entry point of the missing resolution
pass — process every namespace in the arena in order.  The
pure-forward replacement step that precedes it only appends
dependencies to export targets, so it is subsumed by quantifying over
arbitrary input states. -/
def resolveDependenciesModel (fuel : Nat) (st : ResolutionState) :
    Option ResolutionState :=
  (List.range st.namespaces.length).foldlM
    (fun st2 nsid => processNamespace fuel st2 nsid) st

/-! ## Invariant predicates used by the totality proof -/

/-- How one name target may evolve across a resolution step: it stays
absent, keeps its status, or moves to a terminal (non-`NotResolved`)
status.  Appearing or disappearing is ruled out. -/
def targetEvolves : Option NameTarget → Option NameTarget → Prop
  | none, none => True
  | some t, some t2 => t2.status = t.status ∨ t2.status ≠ .NotResolved
  | _, _ => False

/-- The reachability relation between resolution states: the arena
keeps its length and every target evolves per `targetEvolves`. -/
def Evolves (st st2 : ResolutionState) : Prop :=
  st2.namespaces.length = st.namespaces.length ∧
  ∀ ie nsid name, targetEvolves (st.getTarget ie nsid name) (st2.getTarget ie nsid name)

/-- Every local and export target of namespace `nsid` has a terminal
status. -/
def NamespaceDone (st : ResolutionState) (nsid : Nat) : Prop :=
  ∀ ie name t, st.getTarget ie nsid name = some t → t.status ≠ .NotResolved

/-! ## Concrete sample inputs used by witnesses and counterexamples -/

/-- A sample source range. -/
def sampleRange : FileRange := ⟨"mod", (1, 1), (1, 2)⟩

/-- A sample token. -/
def sampleToken (s : String) : Token := ⟨s, sampleRange⟩

/-- A sample pure-forward payload (the cycle detector never inspects
it). -/
def sampleFwd : PureForward := ⟨0, "mod", sampleRange, sampleRange⟩

/-- Four namespaces whose pure-forward edges contain the disjoint
cycles `{0, 1}` and `{2, 3}` plus a larger cycle through all four:
edges (exporter, forwarder) so that `get_consumers` yields `0 ↦ [1]`,
`1 ↦ [0, 2]`, `2 ↦ [3]`, `3 ↦ [2, 0]`. -/
def mergeBugGraph : PureForwardGraph :=
  ⟨[((0, 1), sampleFwd), ((1, 0), sampleFwd), ((1, 2), sampleFwd),
    ((2, 3), sampleFwd), ((3, 2), sampleFwd), ((3, 0), sampleFwd)], 4⟩

/-- The same edge set as `mergeBugGraph` in a different hash-map
iteration order (`get_consumers 1` now yields `[2, 0]`). -/
def mergeBugGraphPermuted : PureForwardGraph :=
  ⟨[((0, 1), sampleFwd), ((1, 2), sampleFwd), ((1, 0), sampleFwd),
    ((2, 3), sampleFwd), ((3, 2), sampleFwd), ((3, 0), sampleFwd)], 4⟩

/-- Three namespaces with the single pure-forward edge `0 → 1`
(consumer 1 of exporter 0); namespace `2` has no edges. -/
def coverageGapGraph : PureForwardGraph := ⟨[((0, 1), sampleFwd)], 3⟩

/-- One namespace with a pure-forward edge to itself. -/
def selfLoopGraph : PureForwardGraph := ⟨[((0, 0), sampleFwd)], 1⟩

/-- An empty two-namespace graph. -/
def emptyGraphTwo : PureForwardGraph := PureForwardGraph.new 2

/-- The graph holding the single forward `(0, 1)`. -/
def sampleGraphOne : PureForwardGraph := ⟨[((0, 1), sampleFwd)], 2⟩

/-- A sample `Warning`-level diagnostic. -/
def sampleDiag : Diagnostic := ⟨sampleRange, "note", .Warning⟩

/-- A module namespace whose local `x` is a direct declaration, whose
export `y` re-exports `x`, and whose export `z` re-exports a local `w`
that does not exist. -/
def sampleNamespaceIn : Namespace :=
  .Module 0 "mod"
    [("x", ⟨.NotResolved, [.LocalDeclaration 7], []⟩)]
    [("y", ⟨.NotResolved, [], [.ExportedName 0 (sampleToken "x") (sampleToken "y")]⟩),
     ("z", ⟨.NotResolved, [], [.ExportedName 0 (sampleToken "w") (sampleToken "z")]⟩)]

/-- The resolution input state around `sampleNamespaceIn`. -/
def sampleState : ResolutionState :=
  ⟨[("mod", .Success 0 false)], [sampleNamespaceIn], []⟩

/-- The output of the modelled resolution pass on `sampleState`. -/
def sampleStateResolved : ResolutionState :=
  ⟨[("mod", .Success 0 false)],
   [.Module 0 "mod"
      [("x", ⟨.FullyResolved, [.LocalDeclaration 7], []⟩)]
      [("y", ⟨.FullyResolved, [.LocalName "x" 7], []⟩),
       ("z", ⟨.Dangling, [.MissingLocal "w"], []⟩)]],
   [⟨sampleRange, "Local \"w\" does not exist", .Error⟩]⟩

/-! ## Helper lemmas -/

theorem lookupName_append_self (m : List (String × NameTarget)) (name : String)
    (v : NameTarget) (h : lookupName m name = none) :
    lookupName (m ++ [(name, v)]) name = some v := by
  induction m with
  | nil => simp [lookupName]
  | cons head tail ih =>
    rcases head with ⟨k, w⟩
    by_cases hk : k = name
    · simp [lookupName, hk] at h
    · simp [lookupName, hk] at h ⊢
      exact ih h

theorem lookupName_some_mem (m : List (String × NameTarget)) (name : String)
    (t : NameTarget) (h : lookupName m name = some t) : name ∈ m.map Prod.fst := by
  induction m with
  | nil => simp [lookupName] at h
  | cons head tail ih =>
    rcases head with ⟨k, w⟩
    by_cases hk : k = name
    · simp [hk]
    · simp [lookupName, hk] at h
      simp [ih h]

theorem lookupName_updateName_self (m : List (String × NameTarget)) (name : String)
    (f : NameTarget → NameTarget) :
    lookupName (updateName m name f) name = (lookupName m name).map f := by
  induction m with
  | nil => simp [lookupName, updateName]
  | cons head tail ih =>
    rcases head with ⟨k, w⟩
    by_cases hk : k = name <;> simp [lookupName, updateName, hk, ih]

theorem lookupName_updateName_other (m : List (String × NameTarget)) (name name2 : String)
    (f : NameTarget → NameTarget) (h : name2 ≠ name) :
    lookupName (updateName m name f) name2 = lookupName m name2 := by
  induction m with
  | nil => simp [lookupName, updateName]
  | cons head tail ih =>
    rcases head with ⟨k, w⟩
    by_cases hk : k = name
    · subst hk
      simp [lookupName, updateName, Ne.symm h, ih]
    · by_cases hk2 : k = name2 <;> simp [lookupName, updateName, hk, hk2, h, ih]

theorem withExports_exports (ns : Namespace) (m : List (String × NameTarget)) :
    (ns.withExports m).exports = m := by
  cases ns <;> rfl

theorem withExports_locals (ns : Namespace) (m : List (String × NameTarget)) :
    (ns.withExports m).locals = ns.locals := by
  cases ns <;> rfl

theorem withLocals_locals (ns : Namespace) (m : List (String × NameTarget)) :
    (ns.withLocals m).locals = m := by
  cases ns <;> rfl

theorem withLocals_exports (ns : Namespace) (m : List (String × NameTarget)) :
    (ns.withLocals m).exports = ns.exports := by
  cases ns <;> rfl

theorem listModify_length {α : Type} (l : List α) (i : Nat) (f : α → α) :
    (listModify l i f).length = l.length := by
  induction l generalizing i with
  | nil => rfl
  | cons x rest ih =>
    cases i with
    | zero => rfl
    | succ j => simp [listModify, ih]

theorem listModify_get_self {α : Type} (l : List α) (i : Nat) (f : α → α) :
    (listModify l i f)[i]? = l[i]?.map f := by
  induction l generalizing i with
  | nil => simp [listModify]
  | cons x rest ih =>
    cases i with
    | zero => simp [listModify]
    | succ j => simpa [listModify] using ih j

theorem listModify_get_other {α : Type} (l : List α) (i j : Nat) (f : α → α)
    (h : j ≠ i) : (listModify l i f)[j]? = l[j]? := by
  induction l generalizing i j with
  | nil => simp [listModify]
  | cons x rest ih =>
    cases i with
    | zero =>
      cases j with
      | zero => exact absurd rfl h
      | succ j2 => simp [listModify]
    | succ i2 =>
      cases j with
      | zero => simp [listModify]
      | succ j2 =>
        simp only [listModify]
        simpa using ih i2 j2 (by omega)

theorem setAggregateStatus_ne_notResolved (t : NameTarget) :
    (t.setAggregateStatus).status ≠ .NotResolved := by
  unfold NameTarget.setAggregateStatus
  split
  · simp
  · split
    · simp
    · split <;> simp

theorem getNs_congr (st st2 : ResolutionState) (h : st2.namespaces = st.namespaces)
    (nsid : Nat) : st2.getNs nsid = st.getNs nsid := by
  unfold ResolutionState.getNs
  rw [h]

theorem getTarget_congr (st st2 : ResolutionState) (h : st2.namespaces = st.namespaces)
    (ie : Bool) (nsid : Nat) (name : String) :
    st2.getTarget ie nsid name = st.getTarget ie nsid name := by
  unfold ResolutionState.getTarget ResolutionState.getExport ResolutionState.getLocal
  rw [getNs_congr st st2 h]

theorem getExport_mutateExport (st : ResolutionState) (nsid : Nat) (name : String)
    (f : NameTarget → NameTarget) (nsid2 : Nat) (name2 : String) :
    (st.mutateExport nsid name f).getExport nsid2 name2 =
      if nsid2 = nsid ∧ name2 = name then (st.getExport nsid2 name2).map f
      else st.getExport nsid2 name2 := by
  unfold ResolutionState.getExport ResolutionState.getNs ResolutionState.mutateExport
  by_cases hn : nsid2 = nsid
  · subst hn
    rw [listModify_get_self]
    rcases hns : st.namespaces[nsid2]? with _ | ns
    · simp
    · by_cases hm : name2 = name
      · subst hm
        simp [withExports_exports, lookupName_updateName_self]
      · simp [withExports_exports, lookupName_updateName_other _ _ _ _ hm, hm]
  · rw [listModify_get_other _ _ _ _ hn]
    simp [hn]

theorem getLocal_mutateExport (st : ResolutionState) (nsid : Nat) (name : String)
    (f : NameTarget → NameTarget) (nsid2 : Nat) (name2 : String) :
    (st.mutateExport nsid name f).getLocal nsid2 name2 = st.getLocal nsid2 name2 := by
  unfold ResolutionState.getLocal ResolutionState.getNs ResolutionState.mutateExport
  by_cases hn : nsid2 = nsid
  · subst hn
    rw [listModify_get_self]
    rcases hns : st.namespaces[nsid2]? with _ | ns <;> simp [withExports_locals]
  · rw [listModify_get_other _ _ _ _ hn]

theorem getLocal_mutateLocal (st : ResolutionState) (nsid : Nat) (name : String)
    (f : NameTarget → NameTarget) (nsid2 : Nat) (name2 : String) :
    (st.mutateLocal nsid name f).getLocal nsid2 name2 =
      if nsid2 = nsid ∧ name2 = name then (st.getLocal nsid2 name2).map f
      else st.getLocal nsid2 name2 := by
  unfold ResolutionState.getLocal ResolutionState.getNs ResolutionState.mutateLocal
  by_cases hn : nsid2 = nsid
  · subst hn
    rw [listModify_get_self]
    rcases hns : st.namespaces[nsid2]? with _ | ns
    · simp
    · by_cases hm : name2 = name
      · subst hm
        simp [withLocals_locals, lookupName_updateName_self]
      · simp [withLocals_locals, lookupName_updateName_other _ _ _ _ hm, hm]
  · rw [listModify_get_other _ _ _ _ hn]
    simp [hn]

theorem getExport_mutateLocal (st : ResolutionState) (nsid : Nat) (name : String)
    (f : NameTarget → NameTarget) (nsid2 : Nat) (name2 : String) :
    (st.mutateLocal nsid name f).getExport nsid2 name2 = st.getExport nsid2 name2 := by
  unfold ResolutionState.getExport ResolutionState.getNs ResolutionState.mutateLocal
  by_cases hn : nsid2 = nsid
  · subst hn
    rw [listModify_get_self]
    rcases hns : st.namespaces[nsid2]? with _ | ns <;> simp [withLocals_exports]
  · rw [listModify_get_other _ _ _ _ hn]

theorem getTarget_mutateTarget (st : ResolutionState) (ie : Bool) (nsid : Nat)
    (name : String) (f : NameTarget → NameTarget) (ie2 : Bool) (nsid2 : Nat)
    (name2 : String) :
    (st.mutateTarget ie nsid name f).getTarget ie2 nsid2 name2 =
      if ie2 = ie ∧ nsid2 = nsid ∧ name2 = name then (st.getTarget ie2 nsid2 name2).map f
      else st.getTarget ie2 nsid2 name2 := by
  unfold ResolutionState.mutateTarget ResolutionState.getTarget
  cases ie <;> cases ie2 <;>
    simp [getExport_mutateExport, getLocal_mutateExport, getExport_mutateLocal,
      getLocal_mutateLocal]

theorem getTarget_mutateTarget_self (st : ResolutionState) (ie : Bool) (nsid : Nat)
    (name : String) (f : NameTarget → NameTarget) :
    (st.mutateTarget ie nsid name f).getTarget ie nsid name =
      (st.getTarget ie nsid name).map f := by
  simp [getTarget_mutateTarget]

theorem mutateTarget_namespaces_length (st : ResolutionState) (ie : Bool) (nsid : Nat)
    (name : String) (f : NameTarget → NameTarget) :
    (st.mutateTarget ie nsid name f).namespaces.length = st.namespaces.length := by
  unfold ResolutionState.mutateTarget ResolutionState.mutateExport
    ResolutionState.mutateLocal
  cases ie <;> simp [listModify_length]

theorem targetEvolves_refl (o : Option NameTarget) : targetEvolves o o := by
  cases o <;> simp [targetEvolves]

theorem targetEvolves_trans {a b c : Option NameTarget} (h1 : targetEvolves a b)
    (h2 : targetEvolves b c) : targetEvolves a c := by
  cases a <;> cases b <;> cases c <;> simp [targetEvolves] at h1 h2 ⊢
  rcases h2 with h2 | h2
  · rcases h1 with h1 | h1
    · exact Or.inl (h2.trans h1)
    · exact Or.inr (h2 ▸ h1)
  · exact Or.inr h2

theorem evolves_refl (st : ResolutionState) : Evolves st st :=
  ⟨rfl, fun _ _ _ => targetEvolves_refl _⟩

theorem evolves_trans {a b c : ResolutionState} (h1 : Evolves a b) (h2 : Evolves b c) :
    Evolves a c :=
  ⟨h2.1.trans h1.1,
   fun ie nsid name => targetEvolves_trans (h1.2 ie nsid name) (h2.2 ie nsid name)⟩

theorem evolves_of_namespaces_eq {st st2 : ResolutionState}
    (h : st2.namespaces = st.namespaces) : Evolves st st2 := by
  refine ⟨by rw [h], fun ie nsid name => ?_⟩
  rw [getTarget_congr st st2 h]
  exact targetEvolves_refl _

theorem evolves_mutateTarget (st : ResolutionState) (ie : Bool) (nsid : Nat)
    (name : String) (f : NameTarget → NameTarget)
    (hf : ∀ t, (f t).status = t.status ∨ (f t).status ≠ .NotResolved) :
    Evolves st (st.mutateTarget ie nsid name f) := by
  refine ⟨mutateTarget_namespaces_length st ie nsid name f, fun ie2 nsid2 name2 => ?_⟩
  rw [getTarget_mutateTarget]
  split
  · rcases st.getTarget ie2 nsid2 name2 with _ | t
    · simp [targetEvolves]
    · simpa [targetEvolves] using hf t
  · exact targetEvolves_refl _

theorem evolves_addReference (st : ResolutionState) (ie : Bool) (nsid : Nat)
    (name : String) (r : Reference) : Evolves st (st.addReference ie nsid name r) :=
  evolves_mutateTarget st ie nsid name _ (fun _ => Or.inl rfl)

theorem evolves_addDiagnostic (st : ResolutionState) (msg : String) (loc : FileRange) :
    Evolves st (st.addDiagnostic msg loc) :=
  evolves_of_namespaces_eq rfl

theorem evolves_addRefDiag (st : ResolutionState) (ie : Bool) (nsid : Nat)
    (name : String) (r : Reference) (msg : String) (loc : FileRange) :
    Evolves st ((st.addReference ie nsid name r).addDiagnostic msg loc) :=
  evolves_trans (evolves_addReference st ie nsid name r)
    (evolves_addDiagnostic _ msg loc)

theorem evolves_setAgg (st : ResolutionState) (ie : Bool) (nsid : Nat) (name : String) :
    Evolves st (st.mutateTarget ie nsid name NameTarget.setAggregateStatus) :=
  evolves_mutateTarget st ie nsid name _
    (fun t => Or.inr (setAggregateStatus_ne_notResolved t))

theorem evolves_popDep (st : ResolutionState) (ie : Bool) (nsid : Nat) (name : String)
    (rest : List Dependency) :
    Evolves st (st.mutateTarget ie nsid name (fun t2 => { t2 with dependencies := rest })) :=
  evolves_mutateTarget st ie nsid name _ (fun _ => Or.inl rfl)

theorem evolves_foldl {β : Type} (g : ResolutionState → β → ResolutionState)
    (hg : ∀ s b, Evolves s (g s b)) :
    ∀ (l : List β) (s : ResolutionState), Evolves s (l.foldl g s) := by
  intro l
  induction l with
  | nil => exact fun s => evolves_refl s
  | cons b rest ih =>
    intro s
    exact evolves_trans (hg s b) (ih (g s b))

theorem evolves_addResolvedRemoteRefs (st : ResolutionState) (ie : Bool) (nsid : Nat)
    (name : String) (modulePath exportName : String) (refs : List Reference) :
    Evolves st (addResolvedRemoteRefs st ie nsid name modulePath exportName refs) :=
  evolves_foldl _ (fun s _ => evolves_addReference s ie nsid name _) _ st

theorem evolves_addResolvedLocalRefs (st : ResolutionState) (nsid : Nat) (name : String)
    (localName : String) (refs : List Reference) :
    Evolves st (addResolvedLocalRefs st nsid name localName refs) :=
  evolves_foldl _ (fun s _ => evolves_addReference s true nsid name _) _ st

theorem processes_evolve : ∀ fuel : Nat,
    (∀ st ie nsid name chain st2,
      processName fuel st ie nsid name chain = some st2 → Evolves st st2) ∧
    (∀ st ie nsid name chain st2,
      drainLoop fuel st ie nsid name chain = some st2 → Evolves st st2) ∧
    (∀ st dep chain st2,
      processDependency fuel st dep chain = some st2 → Evolves st st2) := by
  intro fuel
  induction fuel with
  | zero =>
    refine ⟨?_, ?_, ?_⟩
    · intro _ _ _ _ _ _ h
      simp [processName] at h
    · intro _ _ _ _ _ _ h
      simp [drainLoop] at h
    · intro _ _ _ _ h
      simp [processDependency] at h
  | succ fuel ih =>
    obtain ⟨ihName, ihDrain, ihDep⟩ := ih
    refine ⟨?_, ?_, ?_⟩
    · intro st ie nsid name chain st2 h
      rw [processName] at h
      rcases ht : st.getTarget ie nsid name with _ | t
      · simp [ht] at h
      · simp only [ht, Option.bind_eq_bind, Option.some_bind] at h
        split at h
        · simp only [pure, Option.some.injEq] at h
          subst h
          exact evolves_refl st
        · rcases hd : drainLoop fuel st ie nsid name chain with _ | st1
          · simp [hd] at h
          · simp only [hd, Option.bind_eq_bind, Option.some_bind, pure, Option.some.injEq] at h
            subst h
            exact evolves_trans (ihDrain st ie nsid name chain st1 hd)
              (evolves_setAgg st1 ie nsid name)
    · intro st ie nsid name chain st2 h
      rw [drainLoop] at h
      rcases ht : st.getTarget ie nsid name with _ | t
      · simp [ht] at h
      · simp only [ht, Option.bind_eq_bind, Option.some_bind] at h
        rcases hdeps : t.dependencies with _ | ⟨dep, rest⟩
        · rw [hdeps] at h
          simp only [pure, Option.some.injEq] at h
          subst h
          exact evolves_refl st
        · rw [hdeps] at h
          rcases hp : processDependency fuel
              (st.mutateTarget ie nsid name fun t2 => { t2 with dependencies := rest })
              dep chain with _ | stp
          · simp [hp] at h
          · simp only [hp, Option.bind_eq_bind, Option.some_bind] at h
            exact evolves_trans (evolves_popDep st ie nsid name rest)
              (evolves_trans (ihDep _ dep chain stp hp)
                (ihDrain stp ie nsid name chain st2 h))
    · intro st dep chain st2 h
      cases dep with
      | ImportedName importNamespace importName exportModule exportModuleLocation exportName =>
        simp only [processDependency] at h
        split at h
        · simp only [pure, Option.some.injEq] at h
          subst h
          exact evolves_addRefDiag st false importNamespace importName.image _ _ _
        · split at h
          · simp only [pure, Option.some.injEq] at h
            subst h
            exact evolves_addRefDiag st false importNamespace importName.image _ _ _
          · split at h
            · simp only [pure, Option.some.injEq] at h
              subst h
              exact evolves_addRefDiag st false importNamespace importName.image _ _ _
            · simp only [Option.bind_eq_bind, Option.bind_eq_some] at h
              obtain ⟨st1, hp, exp, he, h⟩ := h
              have hev := ihName _ _ _ _ _ _ hp
              split at h
              · simp only [pure, Option.some.injEq] at h
                subst h
                exact evolves_trans hev (evolves_addResolvedRemoteRefs st1 false importNamespace importName.image exportModule exportName.image exp.references)
              · simp only [pure, Option.some.injEq] at h
                subst h
                exact evolves_trans hev (evolves_addReference st1 false importNamespace importName.image _)
              · simp only [pure, Option.some.injEq] at h
                subst h
                exact evolves_trans hev (evolves_addReference st1 false importNamespace importName.image _)
              · simp only [pure, Option.some.injEq] at h
                subst h
                exact evolves_trans hev (evolves_addReference st1 false importNamespace importName.image _)
              · exact Option.noConfusion h
      | ImportedNamespace importNamespace importName exportModule exportModuleLocation starLocation =>
        simp only [processDependency] at h
        split at h
        · simp only [pure, Option.some.injEq] at h
          subst h
          exact evolves_addRefDiag st false importNamespace importName.image _ _ _
        · simp only [pure, Option.some.injEq] at h
          subst h
          exact evolves_addReference st false importNamespace importName.image _
      | ForwardedName forwardNamespace forwardName exportModule exportModuleLocation exportName =>
        simp only [processDependency] at h
        split at h
        · simp only [pure, Option.some.injEq] at h
          subst h
          exact evolves_addRefDiag st true forwardNamespace forwardName.image _ _ _
        · split at h
          · simp only [pure, Option.some.injEq] at h
            subst h
            exact evolves_addRefDiag st true forwardNamespace forwardName.image _ _ _
          · split at h
            · simp only [pure, Option.some.injEq] at h
              subst h
              exact evolves_addRefDiag st true forwardNamespace forwardName.image _ _ _
            · simp only [Option.bind_eq_bind, Option.bind_eq_some] at h
              obtain ⟨st1, hp, exp, he, h⟩ := h
              have hev := ihName _ _ _ _ _ _ hp
              split at h
              · simp only [pure, Option.some.injEq] at h
                subst h
                exact evolves_trans hev (evolves_addResolvedRemoteRefs st1 true forwardNamespace forwardName.image exportModule exportName.image exp.references)
              · simp only [pure, Option.some.injEq] at h
                subst h
                exact evolves_trans hev (evolves_addReference st1 true forwardNamespace forwardName.image _)
              · simp only [pure, Option.some.injEq] at h
                subst h
                exact evolves_trans hev (evolves_addReference st1 true forwardNamespace forwardName.image _)
              · simp only [pure, Option.some.injEq] at h
                subst h
                exact evolves_trans hev (evolves_addReference st1 true forwardNamespace forwardName.image _)
              · exact Option.noConfusion h
      | PureForwardReplacement forwardNamespace forwardName exportModule exportModuleLocation starLocation =>
        simp only [processDependency] at h
        split at h
        · simp only [pure, Option.some.injEq] at h
          subst h
          exact evolves_addRefDiag st true forwardNamespace forwardName _ _ _
        · split at h
          · simp only [pure, Option.some.injEq] at h
            subst h
            exact evolves_addRefDiag st true forwardNamespace forwardName _ _ _
          · split at h
            · simp only [pure, Option.some.injEq] at h
              subst h
              exact evolves_addRefDiag st true forwardNamespace forwardName _ _ _
            · simp only [Option.bind_eq_bind, Option.bind_eq_some] at h
              obtain ⟨st1, hp, exp, he, h⟩ := h
              have hev := ihName _ _ _ _ _ _ hp
              split at h
              · simp only [pure, Option.some.injEq] at h
                subst h
                exact evolves_trans hev (evolves_addResolvedRemoteRefs st1 true forwardNamespace forwardName exportModule forwardName exp.references)
              · simp only [pure, Option.some.injEq] at h
                subst h
                exact evolves_trans hev (evolves_addReference st1 true forwardNamespace forwardName _)
              · simp only [pure, Option.some.injEq] at h
                subst h
                exact evolves_trans hev (evolves_addReference st1 true forwardNamespace forwardName _)
              · simp only [pure, Option.some.injEq] at h
                subst h
                exact evolves_trans hev (evolves_addReference st1 true forwardNamespace forwardName _)
              · exact Option.noConfusion h
      | ForwardedNamespace forwardNamespace forwardName exportModule exportModuleLocation starLocation =>
        simp only [processDependency] at h
        split at h
        · simp only [pure, Option.some.injEq] at h
          subst h
          exact evolves_addRefDiag st true forwardNamespace forwardName.image _ _ _
        · simp only [pure, Option.some.injEq] at h
          subst h
          exact evolves_addReference st true forwardNamespace forwardName.image _
      | ExportedName nspace localName exportName =>
        simp only [processDependency] at h
        split at h
        · simp only [pure, Option.some.injEq] at h
          subst h
          exact evolves_addRefDiag st true nspace exportName.image _ _ _
        · split at h
          · simp only [pure, Option.some.injEq] at h
            subst h
            exact evolves_addRefDiag st true nspace exportName.image _ _ _
          · simp only [Option.bind_eq_bind, Option.bind_eq_some] at h
            obtain ⟨st1, hp, loc, he, h⟩ := h
            have hev := ihName _ _ _ _ _ _ hp
            split at h
            · simp only [pure, Option.some.injEq] at h
              subst h
              exact evolves_trans hev (evolves_addResolvedLocalRefs st1 nspace exportName.image localName.image loc.references)
            · simp only [pure, Option.some.injEq] at h
              subst h
              exact evolves_trans hev (evolves_addReference st1 true nspace exportName.image _)
            · simp only [pure, Option.some.injEq] at h
              subst h
              exact evolves_trans hev (evolves_addReference st1 true nspace exportName.image _)
            · simp only [pure, Option.some.injEq] at h
              subst h
              exact evolves_trans hev (evolves_addReference st1 true nspace exportName.image _)
            · exact Option.noConfusion h

theorem evolves_some_back {s s2 : ResolutionState} (h : Evolves s s2) (ie : Bool)
    (nsid : Nat) (name : String) (t2 : NameTarget)
    (h2 : s2.getTarget ie nsid name = some t2) :
    ∃ t, s.getTarget ie nsid name = some t ∧
      (t2.status = t.status ∨ t2.status ≠ .NotResolved) := by
  have hte := h.2 ie nsid name
  rcases hs : s.getTarget ie nsid name with _ | t
  · rw [hs, h2] at hte
    exact absurd hte (by simp [targetEvolves])
  · rw [hs, h2] at hte
    exact ⟨t, rfl, hte⟩

theorem done_preserved {s s2 : ResolutionState} (h : Evolves s s2) (ie : Bool)
    (nsid : Nat) (name : String)
    (hd : ∀ t, s.getTarget ie nsid name = some t → t.status ≠ .NotResolved) :
    ∀ t2, s2.getTarget ie nsid name = some t2 → t2.status ≠ .NotResolved := by
  intro t2 h2
  obtain ⟨t, ht, hrel⟩ := evolves_some_back h ie nsid name t2 h2
  rcases hrel with hrel | hrel
  · rw [hrel]
    exact hd t ht
  · exact hrel

theorem namespaceDone_preserved {s s2 : ResolutionState} (h : Evolves s s2) (nsid : Nat)
    (hd : NamespaceDone s nsid) : NamespaceDone s2 nsid :=
  fun ie name t2 ht2 =>
    done_preserved h ie nsid name (fun t ht => hd ie name t ht) t2 ht2

theorem processName_done (fuel : Nat) (st : ResolutionState) (ie : Bool) (nsid : Nat)
    (name : String) (chain : List Dependency) (st2 : ResolutionState)
    (h : processName fuel st ie nsid name chain = some st2) :
    ∀ t2, st2.getTarget ie nsid name = some t2 → t2.status ≠ .NotResolved := by
  cases fuel with
  | zero => simp [processName] at h
  | succ fuel =>
    rw [processName] at h
    rcases ht : st.getTarget ie nsid name with _ | t
    · simp [ht] at h
    · simp only [ht, Option.bind_eq_bind, Option.some_bind] at h
      split at h
      · rename_i hterm
        simp only [pure, Option.some.injEq] at h
        subst h
        intro t2 h2
        rw [ht] at h2
        cases h2
        exact hterm
      · simp only [Option.bind_eq_bind, Option.bind_eq_some] at h
        obtain ⟨st1, hd, h⟩ := h
        simp only [pure, Option.some.injEq] at h
        subst h
        intro t2 h2
        rw [getTarget_mutateTarget_self] at h2
        rcases h1 : st1.getTarget ie nsid name with _ | t1
        · rw [h1] at h2
          simp at h2
        · rw [h1] at h2
          simp only [Option.map_some', Option.some.injEq] at h2
          rw [← h2]
          exact setAggregateStatus_ne_notResolved t1

theorem foldNames_done (fuel : Nat) (ie : Bool) (nsid : Nat) :
    ∀ (keys : List String) (st st2 : ResolutionState),
      keys.foldlM (fun s n => processName fuel s ie nsid n []) st = some st2 →
      Evolves st st2 ∧
        ∀ k ∈ keys, ∀ t2, st2.getTarget ie nsid k = some t2 →
          t2.status ≠ .NotResolved := by
  intro keys
  induction keys with
  | nil =>
    intro st st2 h
    simp only [List.foldlM_nil, pure, Option.some.injEq] at h
    subst h
    exact ⟨evolves_refl st, by simp⟩
  | cons k rest ih =>
    intro st st2 h
    simp only [List.foldlM_cons, Option.bind_eq_bind, Option.bind_eq_some] at h
    obtain ⟨st1, hk, hrest⟩ := h
    have hrest2 : rest.foldlM (fun s n => processName fuel s ie nsid n []) st1 =
        some st2 := by
      simpa using hrest
    have h1 := (processes_evolve fuel).1 _ _ _ _ _ _ hk
    obtain ⟨hev, hdone⟩ := ih st1 st2 hrest2
    refine ⟨evolves_trans h1 hev, ?_⟩
    intro k2 hk2
    rcases List.mem_cons.mp hk2 with rfl | hmem
    · exact done_preserved hev ie nsid k2 (processName_done fuel st ie nsid k2 [] st1 hk)
    · exact hdone k2 hmem

theorem processNamespace_done (fuel : Nat) (st : ResolutionState) (nsid : Nat)
    (st2 : ResolutionState) (h : processNamespace fuel st nsid = some st2) :
    Evolves st st2 ∧ NamespaceDone st2 nsid := by
  unfold processNamespace at h
  simp only [Option.bind_eq_bind, Option.bind_eq_some] at h
  obtain ⟨ns0, hns0, st1, hfold1, ns2, hns2, hfold2⟩ := h
  obtain ⟨hev1, hdone1⟩ := foldNames_done fuel true nsid _ st st1 hfold1
  obtain ⟨hev2, hdone2⟩ := foldNames_done fuel false nsid _ st1 st2 hfold2
  refine ⟨evolves_trans hev1 hev2, ?_⟩
  intro ie name t2 ht2
  cases ie
  · obtain ⟨t1, ht1, _⟩ := evolves_some_back hev2 false nsid name t2 ht2
    have hlk : lookupName ns2.locals name = some t1 := by
      simp only [ResolutionState.getTarget, ResolutionState.getLocal, Bool.false_eq_true,
        if_false] at ht1
      rw [hns2] at ht1
      simpa using ht1
    exact hdone2 name (lookupName_some_mem _ _ _ hlk) t2 ht2
  · obtain ⟨tmid, htmid, _⟩ := evolves_some_back hev2 true nsid name t2 ht2
    obtain ⟨t0, ht0, _⟩ := evolves_some_back hev1 true nsid name tmid htmid
    have hlk : lookupName ns0.exports name = some t0 := by
      simp only [ResolutionState.getTarget, ResolutionState.getExport, if_true] at ht0
      rw [show st.getNs nsid = some ns0 from hns0] at ht0
      simpa using ht0
    have hdone_mid := hdone1 name (lookupName_some_mem _ _ _ hlk)
    exact done_preserved hev2 true nsid name hdone_mid t2 ht2

theorem run_fold (fuel : Nat) :
    ∀ (nsids : List Nat) (st st2 : ResolutionState),
      nsids.foldlM (fun s nsid => processNamespace fuel s nsid) st = some st2 →
      Evolves st st2 ∧ ∀ nsid ∈ nsids, NamespaceDone st2 nsid := by
  intro nsids
  induction nsids with
  | nil =>
    intro st st2 h
    simp only [List.foldlM_nil, pure, Option.some.injEq] at h
    subst h
    exact ⟨evolves_refl st, by simp⟩
  | cons n rest ih =>
    intro st st2 h
    simp only [List.foldlM_cons, Option.bind_eq_bind, Option.bind_eq_some] at h
    obtain ⟨st1, hn, hrest⟩ := h
    have hrest2 : rest.foldlM (fun s nsid => processNamespace fuel s nsid) st1 =
        some st2 := by
      simpa using hrest
    obtain ⟨hev1, hdone1⟩ := processNamespace_done fuel st n st1 hn
    obtain ⟨hev, hdone⟩ := ih st1 st2 hrest2
    refine ⟨evolves_trans hev1 hev, ?_⟩
    intro nsid hmem
    rcases List.mem_cons.mp hmem with rfl | hmem2
    · exact namespaceDone_preserved hev nsid hdone1
    · exact hdone nsid hmem2

/-! ## C3: terminal-status totality -/

/-- C3 (spec-modelled: the resolution pass exists in the Rust source
only as the empty stub `resolve_dependencies`): whenever the modelled
dependency resolution pass completes on an input module graph, every
name target in every namespace's locals and exports maps has a
terminal status — `status ≠ NotResolved` everywhere. -/
theorem resolution_terminal_status_totality (fuel : Nat) (st st2 : ResolutionState)
    (h : resolveDependenciesModel fuel st = some st2) :
    ∀ nsid name,
      (∀ t, st2.getExport nsid name = some t → t.status ≠ .NotResolved) ∧
      (∀ t, st2.getLocal nsid name = some t → t.status ≠ .NotResolved) := by
  unfold resolveDependenciesModel at h
  obtain ⟨hev, hdone⟩ := run_fold fuel (List.range st.namespaces.length) st st2 h
  have hlt : ∀ nsid, ∀ ns : Namespace, st2.getNs nsid = some ns →
      nsid < st.namespaces.length := by
    intro nsid ns hns
    by_contra hge
    push_neg at hge
    have hnone : st2.namespaces[nsid]? = none :=
      List.getElem?_eq_none (by rw [hev.1]; omega)
    unfold ResolutionState.getNs at hns
    rw [hnone] at hns
    exact Option.noConfusion hns
  intro nsid name
  constructor
  · intro t ht
    rcases hns : st2.getNs nsid with _ | ns
    · unfold ResolutionState.getExport at ht
      rw [hns] at ht
      exact Option.noConfusion ht
    · have hmem := List.mem_range.mpr (hlt nsid ns hns)
      exact hdone nsid hmem true name t (by simpa [ResolutionState.getTarget] using ht)
  · intro t ht
    rcases hns : st2.getNs nsid with _ | ns
    · unfold ResolutionState.getLocal at ht
      rw [hns] at ht
      exact Option.noConfusion ht
    · have hmem := List.mem_range.mpr (hlt nsid ns hns)
      exact hdone nsid hmem false name t (by simpa [ResolutionState.getTarget] using ht)

/-- C3 witness: on `sampleState` the modelled pass completes with
`sampleStateResolved`, whose dangling export `z` indeed carries a
terminal status. -/
theorem resolution_terminal_status_totality_witness :
    resolveDependenciesModel 10 sampleState = some sampleStateResolved ∧
    (NameTarget.mk .Dangling [.MissingLocal "w"] []).status ≠ .NotResolved := by
  have hrun : resolveDependenciesModel 10 sampleState = some sampleStateResolved := by
    rfl
  refine ⟨hrun, ?_⟩
  exact (resolution_terminal_status_totality 10 sampleState sampleStateResolved hrun
    0 "z").1 (NameTarget.mk .Dangling [.MissingLocal "w"] []) (by rfl)

/-! ## C1: aggregate status priority -/

/-- C1: for every `NameTarget`, `set_aggregate_status` yields
`FullyResolved` if any reference is resolved (no matter how many
dangling or circular references coexist); otherwise `Dangling` if any
reference is dangling; otherwise `Circular` if any reference is
circular; otherwise `Empty` — in particular a target with zero
references becomes `Empty`. -/
theorem aggregate_status_priority (t : NameTarget) :
    ((∃ r ∈ t.references, r.status = .FullyResolved) →
      (t.setAggregateStatus).status = .FullyResolved) ∧
    ((∀ r ∈ t.references, r.status ≠ .FullyResolved) →
      (∃ r ∈ t.references, r.status = .Dangling) →
      (t.setAggregateStatus).status = .Dangling) ∧
    ((∀ r ∈ t.references, r.status ≠ .FullyResolved ∧ r.status ≠ .Dangling) →
      (∃ r ∈ t.references, r.status = .Circular) →
      (t.setAggregateStatus).status = .Circular) ∧
    ((∀ r ∈ t.references,
        r.status ≠ .FullyResolved ∧ r.status ≠ .Dangling ∧ r.status ≠ .Circular) →
      (t.setAggregateStatus).status = .Empty) ∧
    (t.references = [] → (t.setAggregateStatus).status = .Empty) := by
  refine ⟨?_, ?_, ?_, ?_, ?_⟩
  · rintro ⟨r, hr, hs⟩
    have h1 : t.references.any (fun r => r.status = .FullyResolved) = true :=
      List.any_eq_true.mpr ⟨r, hr, by simp [hs]⟩
    simp [NameTarget.setAggregateStatus, h1]
  · intro hall ⟨r, hr, hs⟩
    have h1 : t.references.any (fun r => r.status = .FullyResolved) = false := by
      simp only [List.any_eq_false, decide_eq_true_eq]
      exact hall
    have h2 : t.references.any (fun r => r.status = .Dangling) = true :=
      List.any_eq_true.mpr ⟨r, hr, by simp [hs]⟩
    simp [NameTarget.setAggregateStatus, h1, h2]
  · intro hall ⟨r, hr, hs⟩
    have h1 : t.references.any (fun r => r.status = .FullyResolved) = false := by
      simp only [List.any_eq_false, decide_eq_true_eq]
      exact fun r hr => (hall r hr).1
    have h2 : t.references.any (fun r => r.status = .Dangling) = false := by
      simp only [List.any_eq_false, decide_eq_true_eq]
      exact fun r hr => (hall r hr).2
    have h3 : t.references.any (fun r => r.status = .Circular) = true :=
      List.any_eq_true.mpr ⟨r, hr, by simp [hs]⟩
    simp [NameTarget.setAggregateStatus, h1, h2, h3]
  · intro hall
    have h1 : t.references.any (fun r => r.status = .FullyResolved) = false := by
      simp only [List.any_eq_false, decide_eq_true_eq]
      exact fun r hr => (hall r hr).1
    have h2 : t.references.any (fun r => r.status = .Dangling) = false := by
      simp only [List.any_eq_false, decide_eq_true_eq]
      exact fun r hr => (hall r hr).2.1
    have h3 : t.references.any (fun r => r.status = .Circular) = false := by
      simp only [List.any_eq_false, decide_eq_true_eq]
      exact fun r hr => (hall r hr).2.2
    simp [NameTarget.setAggregateStatus, h1, h2, h3]
  · intro h
    simp [NameTarget.setAggregateStatus, h]

/-- C1 witness: a target holding a dangling, a circular and a resolved
reference aggregates to `FullyResolved`. -/
theorem aggregate_status_priority_witness :
    (NameTarget.mk .NotResolved
      [.MissingLocal "a", .CircularLocal "b", .LocalDeclaration 3] []).setAggregateStatus.status =
      .FullyResolved :=
  (aggregate_status_priority _).1 ⟨.LocalDeclaration 3, by simp, rfl⟩

/-! ## C7: DiagResult and the try operator -/

/-- C7 counterexample: `from_error []` builds a `DiagResult` in the
failure form (no value) that carries no diagnostic at all, in
particular none of level `Error` or above. -/
theorem diagresult_failure_without_error_counterexample :
    (DiagResult.fromError (T := Nat) []).val = none ∧
    (DiagResult.fromError (T := Nat) []).diags = [] ∧
    ¬ ∃ d, d ∈ (DiagResult.fromError (T := Nat) []).diags ∧ DiagnosticLevel.Error.le d.level := by
  refine ⟨rfl, rfl, ?_⟩
  rintro ⟨d, hd, _⟩
  simp [DiagResult.fromError] at hd

/-- C7 (amended): a `DiagResult` in the failure form has no value, and
`into_result` (the `?` operator) short-circuits — yielding the error
branch carrying exactly the accumulated diagnostics — if and only if
the value is absent; a `DiagResult` with a value present never
short-circuits, regardless of its diagnostics. -/
theorem diagresult_short_circuit (T : Type) (r : DiagResult T) :
    (r.intoResult = .error r.diags ↔ r.val = none) ∧
    (∀ ds, r.intoResult = .error ds → r.val = none ∧ ds = r.diags) ∧
    (∀ v, r.val = some v → r.intoResult = .ok r) := by
  rcases r with ⟨val, diags⟩
  cases val <;> simp [DiagResult.intoResult]

/-- C7 witness: a concrete valueless result short-circuits with its
diagnostics, and a concrete valued result does not. -/
theorem diagresult_short_circuit_witness :
    (DiagResult.mk (T := Nat) none [sampleDiag]).intoResult = .error [sampleDiag] ∧
    (DiagResult.mk (T := Nat) (some 5) [sampleDiag]).intoResult =
      .ok (DiagResult.mk (T := Nat) (some 5) [sampleDiag]) :=
  ⟨(diagresult_short_circuit Nat _).1.mpr rfl,
   (diagresult_short_circuit Nat _).2.2 5 rfl⟩

/-! ## C8: FileRange::merge -/

/-- C8: evaluation of `FileRange::merge` at a range pair where the
argument both starts earlier and ends later than `self`.  The code
returns start `(1, 1)` — the argument's start line duplicated into the
column — and keeps `self`'s end `(2, 10)`, instead of the
earliest-start/latest-end range `(1, 3)..(3, 4)` required by the claim;
merging across different paths does error out (`none`). -/
theorem filerange_merge_bug :
    FileRange.merge ⟨"f", (2, 5), (2, 10)⟩ ⟨"f", (1, 3), (3, 4)⟩ =
      some ⟨"f", (1, 1), (2, 10)⟩ ∧
    FileRange.merge ⟨"f", (2, 5), (2, 10)⟩ ⟨"f", (1, 3), (3, 4)⟩ ≠
      some ⟨"f", (1, 3), (3, 4)⟩ ∧
    FileRange.merge ⟨"f", (2, 5), (2, 10)⟩ ⟨"g", (1, 3), (3, 4)⟩ = none := by
  refine ⟨by decide, by decide, by decide⟩

/-! ## C2, C4, C5, C6: the cycle detector at concrete inputs -/

/-- C2: on `mergeBugGraph` the detector returns two distinct cycles
`{0, 1, 2, 3}` and `{2, 3}` that share namespaces 2 and 3 — the
newly discovered cycle `[0, 1, 2, 3]` intersected both earlier cycles
but was merged only into the first, so the result is not pairwise
disjoint. -/
theorem get_cycles_not_disjoint :
    mergeBugGraph.getCycles =
      some [(0, [0, 1, 2, 3]), (1, [0, 1, 2, 3]), (2, [2, 3]), (3, [2, 3])] ∧
    2 ∈ ([0, 1, 2, 3] : List Nat) ∧ 2 ∈ ([2, 3] : List Nat) ∧
    0 ∈ ([0, 1, 2, 3] : List Nat) ∧ 0 ∉ ([2, 3] : List Nat) := by
  refine ⟨by decide, by decide, by decide, by decide, by decide⟩

/-- C4: on `coverageGapGraph` (single edge `0 → 1`, three namespaces)
the visitor finishes with visited set `{1, 0}`: namespace 2 is below
`size` but never visited, because the top-level iteration dies on the
already-visited namespace 1. -/
theorem cycles_visitor_coverage_gap :
    coverageGapGraph.getCyclesState = some ⟨[], [1, 0], []⟩ ∧
    2 ∉ ([1, 0] : List Nat) ∧ 2 < coverageGapGraph.size := by
  refine ⟨by decide, by decide, by decide⟩

/-- C5: two graphs with identical edge sets (equal as multisets, i.e.
the same hash map up to iteration order) and identical sizes, on which
`get_cycles` returns semantically different cycle maps: namespace 2
maps to the cycle `{2, 3}` under one iteration order and to the cycle
`{2, 3, 0, 1}` under the other. -/
theorem get_cycles_order_dependent :
    (mergeBugGraph.map : Multiset ((Nat × Nat) × PureForward)) =
      (mergeBugGraphPermuted.map : Multiset ((Nat × Nat) × PureForward)) ∧
    mergeBugGraph.size = mergeBugGraphPermuted.size ∧
    mergeBugGraph.getCycles.bind (fun m => mapLookup m 2) = some [2, 3] ∧
    mergeBugGraphPermuted.getCycles.bind (fun m => mapLookup m 2) = some [2, 3, 0, 1] ∧
    0 ∈ ([2, 3, 0, 1] : List Nat) ∧ 0 ∉ ([2, 3] : List Nat) := by
  refine ⟨by decide, by decide, by decide, by decide, by decide, by decide⟩

/-- C6: on `selfLoopGraph` (one namespace with a pure forward to
itself) the self-loop is not treated as a cycle — the result holds no
cycle at all — and the visitor state records no diagnostic in any
form: its entire output is the path, visited set and cycle list. -/
theorem self_loop_not_a_cycle :
    selfLoopGraph.getCycles = some [] ∧
    selfLoopGraph.getCyclesState = some ⟨[], [0], []⟩ ∧
    selfLoopGraph.getForward 0 0 = some sampleFwd := by
  refine ⟨by decide, by decide, by decide⟩

/-! ## C9: duplicate forwards -/

/-- C9: `add_forward` succeeds exactly when the `(exporter, forwarder)`
pair is absent (a present pair panics with "Duplicate forward
inserted", modelled as `none`), and on success the result holds exactly
one forward for that pair. -/
theorem add_forward_at_most_one (g : PureForwardGraph) (e f : Nat) (fwd : PureForward) :
    ((g.addForward e f fwd).isSome ↔ g.getForward e f = none) ∧
    (∀ g2, g.addForward e f fwd = some g2 →
      g2.getForward e f = some fwd ∧
      (g2.map.filter (fun p => p.1 = (e, f))).length = 1) := by
  unfold PureForwardGraph.addForward
  rcases h : g.getForward e f with _ | fwd2
  · have hfind : g.map.find? (fun p => p.1 = (e, f)) = none := by
      unfold PureForwardGraph.getForward at h
      exact Option.map_eq_none.mp h
    have hnone : ∀ p ∈ g.map, ¬ (decide (p.1 = (e, f)) = true) := by
      intro p hp
      exact List.find?_eq_none.mp hfind p hp
    constructor
    · simp [h]
    · intro g2 hg2
      simp only [h] at hg2
      cases hg2
      constructor
      · unfold PureForwardGraph.getForward
        have : (g.map ++ [((e, f), fwd)]).find? (fun p => p.1 = (e, f)) =
            some ((e, f), fwd) := by
          rw [List.find?_append, hfind]
          simp
        simp [this]
      · have hf1 : g.map.filter (fun p => p.1 = (e, f)) = [] :=
          List.filter_eq_nil_iff.mpr hnone
        simp [List.filter_append, hf1]
  · simp [h]

/-- C9 witness: inserting `(0, 1)` into the empty graph succeeds and
yields exactly one forward for `(0, 1)`. -/
theorem add_forward_at_most_one_witness :
    (emptyGraphTwo.addForward 0 1 sampleFwd).isSome ∧
    sampleGraphOne.getForward 0 1 = some sampleFwd ∧
    (sampleGraphOne.map.filter (fun p => p.1 = (0, 1))).length = 1 :=
  ⟨(add_forward_at_most_one emptyGraphTwo 0 1 sampleFwd).1.mpr rfl,
   ((add_forward_at_most_one emptyGraphTwo 0 1 sampleFwd).2 sampleGraphOne rfl).1,
   ((add_forward_at_most_one emptyGraphTwo 0 1 sampleFwd).2 sampleGraphOne rfl).2⟩

/-! ## C10: get-or-insert name targets -/

/-- C10: `get_local_target` / `get_export_target` never fail — a
present name returns its existing target with the namespace unchanged;
an absent name inserts and returns a fresh target with status
`NotResolved`, no references and no dependencies, leaving the other
map untouched. -/
theorem get_target_total (ns : Namespace) (name : String) :
    (∀ t, lookupName ns.locals name = some t → ns.getLocalTarget name = (t, ns)) ∧
    (lookupName ns.locals name = none →
      (ns.getLocalTarget name).1 = NameTarget.new ∧
      lookupName (ns.getLocalTarget name).2.locals name = some NameTarget.new ∧
      (ns.getLocalTarget name).2.exports = ns.exports) ∧
    (∀ t, lookupName ns.exports name = some t → ns.getExportTarget name = (t, ns)) ∧
    (lookupName ns.exports name = none →
      (ns.getExportTarget name).1 = NameTarget.new ∧
      lookupName (ns.getExportTarget name).2.exports name = some NameTarget.new ∧
      (ns.getExportTarget name).2.locals = ns.locals) ∧
    NameTarget.new.status = .NotResolved ∧
    NameTarget.new.references = [] ∧ NameTarget.new.dependencies = [] := by
  refine ⟨?_, ?_, ?_, ?_, rfl, rfl, rfl⟩
  · intro t h
    simp [Namespace.getLocalTarget, h]
  · intro h
    refine ⟨by simp [Namespace.getLocalTarget, h], ?_, ?_⟩
    · simp only [Namespace.getLocalTarget, h]
      rw [withLocals_locals]
      exact lookupName_append_self _ _ _ h
    · simp only [Namespace.getLocalTarget, h]
      exact withLocals_exports _ _
  · intro t h
    simp [Namespace.getExportTarget, h]
  · intro h
    refine ⟨by simp [Namespace.getExportTarget, h], ?_, ?_⟩
    · simp only [Namespace.getExportTarget, h]
      rw [withExports_exports]
      exact lookupName_append_self _ _ _ h
    · simp only [Namespace.getExportTarget, h]
      exact withExports_locals _ _

/-- C10 witness: looking up the absent local `a` on an empty module
namespace inserts and returns a fresh `NotResolved` target. -/
theorem get_target_total_witness :
    ((Namespace.Module 0 "mod" [] []).getLocalTarget "a").1 = NameTarget.new ∧
    lookupName ((Namespace.Module 0 "mod" [] []).getLocalTarget "a").2.locals "a" =
      some NameTarget.new ∧
    ((Namespace.Module 0 "mod" [] []).getLocalTarget "a").2.exports =
      (Namespace.Module 0 "mod" [] []).exports :=
  (get_target_total (Namespace.Module 0 "mod" [] []) "a").2.1 rfl

end Renlang
